import Mathlib

/-!
Verification of the `odysseus` playlist store (`src/lib.rs`).

The Rust library manages a music library rooted at a directory: a primary
document `Music.toml` lists playlists, a secondary document `Positions.toml`
holds playback positions, and each non-radio playlist's audio files live in
`<root>/files/<name>/`.  We shallowly embed the store operations: the
filesystem is an explicit structure, file paths are strings, `u32`/`usize`
are `Nat`, fallible operations return `Except`, and the `unwrap` in
`from_path` (which aborts the process) is a distinguished `panic` outcome.
-/

namespace Odysseus

/-- One persisted playlist record of the primary document: exactly the fields
of `Playlist` that serde serializes (`files` and `position` carry
`#[serde(skip)]`). -/
structure PlaylistDoc where
  name : String
  card_id : Option Nat
  allow_random : Bool
  radio_url : Option String
deriving DecidableEq, Repr

/-- `struct Playlist` from `src/lib.rs`: `files` and `position` are skipped by
serde and hence default to empty / `None` right after deserialization. -/
structure Playlist where
  name : String
  card_id : Option Nat
  allow_random : Bool
  radio_url : Option String
  files : List String
  position : Option (Nat × Nat)
deriving DecidableEq, Repr

/-- `struct Store` from `src/lib.rs` (`root_path` is `#[serde(skip)]`). -/
structure Store where
  root_path : String
  playlists : List Playlist
deriving DecidableEq, Repr

/-- Modelled from the spec: the error type lives in `src/error.rs`, which is
not part of the sources; §7 of the spec names the kinds `ConfigMissing`
(wrapping the attempted path and the I/O cause), `ParseError`, and
`PlaylistNotFound` (carrying the searched key), matching the constructors
`StoreError::ConfMissing` and `StoreError::PlaylistNotFound` used in
`src/lib.rs`. -/
inductive StoreError where
  | ConfMissing (path : String)
  | ParseError
  | PlaylistNotFound (key : String)
deriving DecidableEq, Repr

/-- State of the primary document `Music.toml` at a root: absent (or
unreadable), present but not valid TOML for the `Store` schema, or parsed
into its list of playlist records. -/
inductive ConfFile where
  | missing
  | invalid
  | parsed (docs : List PlaylistDoc)
deriving DecidableEq, Repr

/-- The filesystem as seen by a load from one root directory.  `readDir n`
models `std::fs::read_dir(<root>/files/<n>)`: `none` when the directory
cannot be listed, otherwise the enumerated entries, each `none` when that
single entry errors (those are dropped by the `filter_map(|x| x.ok())`). -/
structure FS where
  conf : ConfFile
  readDir : String → Option (List (Option String))

/-- Outcome of `Store::from_path`: `Ok`, `Err`, or a process abort caused by
the `.unwrap()` on `read_dir`. -/
inductive LoadResult where
  | ok (s : Store)
  | err (e : StoreError)
  | panic
deriving DecidableEq, Repr

/-- `true` exactly on the `err` outcome. -/
def LoadResult.isErr : LoadResult → Bool
  | .err _ => true
  | _ => false

/-- A freshly deserialized playlist: persisted fields from the record, the
skipped fields at their serde defaults (`files = []`, `position = none`). -/
def docToPlaylist (d : PlaylistDoc) : Playlist :=
  { name := d.name, card_id := d.card_id, allow_random := d.allow_random,
    radio_url := d.radio_url, files := [], position := none }

/-- Projection of a playlist onto its persisted fields, i.e. what serde
serializes when `Store::save` writes the primary document. -/
def playlistToDoc (p : Playlist) : PlaylistDoc :=
  { name := p.name, card_id := p.card_id, allow_random := p.allow_random,
    radio_url := p.radio_url }

/-- The body of the `for pl in &mut playlists.playlists` loop of
`Store::from_path` for one playlist: when `radio_url` is absent, list
`<root>/files/<name>/` (`none` = the `unwrap` panics), keep the entries that
read successfully and record their full paths. -/
def resolvePlaylist (fs : FS) (root : String) (pl : Playlist) : Option Playlist :=
  if pl.radio_url.isNone then
    match fs.readDir pl.name with
    | none => none
    | some entries =>
        some { pl with files :=
          (entries.filterMap id).map (fun e => root ++ "/files/" ++ pl.name ++ "/" ++ e) }
  else
    some pl

/-- The whole resolution loop of `Store::from_path`, aborting at the first
playlist whose directory cannot be listed. -/
def resolveAll (fs : FS) (root : String) : List Playlist → Option (List Playlist)
  | [] => some []
  | p :: ps =>
      match resolvePlaylist fs root p with
      | none => none
      | some p' => (resolveAll fs root ps).map (p' :: ·)

/-- `Store::from_path`: open and parse `Music.toml` (a missing file maps to
`ConfMissing` carrying the attempted path, unparsable content to a parse
error), set `root_path` to the argument as given, then resolve each
non-radio playlist's files from disk. -/
def from_path (fs : FS) (path : String) : LoadResult :=
  match fs.conf with
  | .missing => .err (.ConfMissing path)
  | .invalid => .err .ParseError
  | .parsed docs =>
      match resolveAll fs path (docs.map docToPlaylist) with
      | none => .panic
      | some pls => .ok { root_path := path, playlists := pls }

/-- `Store::from_pwd`: delegates to `from_path` with the process's current
working directory. -/
def from_pwd (fs : FS) (cwd : String) : LoadResult :=
  from_path fs cwd

/-- The documents written by `Store::save`: the primary document is the
serialization of the store (persisted fields only), the secondary document
the `(name, position)` pairs of the playlists holding a position. -/
def Store.save (s : Store) : List PlaylistDoc × List (String × Nat × Nat) :=
  (s.playlists.map playlistToDoc,
   s.playlists.filterMap (fun p => p.position.map (fun a => (p.name, a))))

/-- `Store::get_files`: first playlist with the given name, its files;
the `PlaylistNotFound` is swallowed by `unwrap_or(vec![])`. -/
def get_files (s : Store) (name : String) : List String :=
  match s.playlists.find? (fun x => x.name == name) with
  | some p => p.files
  | none => []

/-- `Store::playlist_by_name`: the first playlist whose name equals the
argument, else `PlaylistNotFound` with the searched name. -/
def playlist_by_name (s : Store) (name : String) : Except StoreError Playlist :=
  match s.playlists.find? (fun x => x.name == name) with
  | some p => .ok p
  | none => .error (.PlaylistNotFound name)

/-- `Store::playlist_by_card`: the first playlist whose `card_id` equals the
argument, else `PlaylistNotFound ("card <id>")`. -/
def playlist_by_card (s : Store) (id : Nat) : Except StoreError Playlist :=
  match s.playlists.find? (fun x => (x.card_id.map (fun c => c == id)).getD false) with
  | some p => .ok p
  | none => .error (.PlaylistNotFound ("card " ++ toString id))

/-- State-passing translation of mutating through the `&mut Playlist`
returned by `playlist_by_name`: apply `f` to the first playlist with the
given name, `none` when no playlist matches. -/
def updateFirst (f : Playlist → Playlist) (name : String) :
    List Playlist → Option (List Playlist)
  | [] => none
  | p :: ps =>
      if p.name == name then some (f p :: ps)
      else (updateFirst f name ps).map (p :: ·)

/-- `Store::set_playlist_card_id`: `self.playlist_by_name(name)?.card_id =
Some(id)`.  The `?` returns the error with the store untouched. -/
def set_playlist_card_id (s : Store) (name : String) (id : Nat) :
    Store × Except StoreError Unit :=
  match updateFirst (fun p => { p with card_id := some id }) name s.playlists with
  | some ps => ({ s with playlists := ps }, .ok ())
  | none => (s, .error (.PlaylistNotFound name))

/-- `Store::set_position`: `self.playlist_by_name(name)?.position =
Some((pos, 0))`. -/
def set_position (s : Store) (name : String) (pos : Nat) :
    Store × Except StoreError Unit :=
  match updateFirst (fun p => { p with position := some (pos, 0) }) name s.playlists with
  | some ps => ({ s with playlists := ps }, .ok ())
  | none => (s, .error (.PlaylistNotFound name))

/-- The `for sl in ids.windows(2)` loop of `Store::next_card_id`: on the
first adjacent pair `(a, b)` with `a + 1 != b` the function returns `a + 1`.
`none` when the loop falls through. -/
def windowGap : List Nat → Option Nat
  | a :: b :: t => if a + 1 ≠ b then some (a + 1) else windowGap (b :: t)
  | _ => none

/-- Tail of `Store::next_card_id` after the ids are sorted: the window scan,
then `0` for an empty list and `ids[ids.len()-1] + 1` otherwise. -/
def gapResult (l : List Nat) : Nat :=
  match windowGap l with
  | some v => v
  | none => if l.length = 0 then 0 else l.getLastD 0 + 1

/-- `Store::next_card_id`: collect assigned ids, sort ascending, return at
the first gap, otherwise `0` on an empty list and `ids[len-1] + 1`
otherwise. -/
def next_card_id (s : Store) : Nat :=
  gapResult (List.insertionSort (· ≤ ·) (s.playlists.filterMap Playlist.card_id))

/-- The list of card ids currently assigned in the store, in playlist
order. -/
def assignedIds (s : Store) : List Nat :=
  s.playlists.filterMap Playlist.card_id

/-- A reference copy of `next_card_id` following the spec §4.4 text:
"collect all assigned `card_id` values, sort ascending, scan adjacent pairs
(a, b); return `a + 1` at the first pair where `b != a + 1` (the first gap).
If no gap is found, return one past the maximum assigned id, or `0` if no
playlist has an id yet." -/
def specNextCardId (s : Store) : Nat :=
  match windowGap (List.insertionSort (· ≤ ·) (assignedIds s)) with
  | some v => v
  | none => if (assignedIds s).isEmpty then 0 else (assignedIds s).foldr max 0 + 1

/-- Whether a path is absolute (Unix convention, as `Path::is_absolute`):
it begins with the separator. -/
def pathIsAbsolute (p : String) : Bool :=
  match p.data with
  | [] => false
  | c :: _ => c == '/'

/-! ### Concrete fixtures used by witnesses and counterexamples -/

/-- A playlist holding only a name and an optional card id. -/
def plWithCard (n : String) (c : Option Nat) : Playlist :=
  { name := n, card_id := c, allow_random := false, radio_url := none,
    files := [], position := none }

def jazzPl : Playlist :=
  { name := "Jazz", card_id := none, allow_random := true, radio_url := none,
    files := ["/r/files/Jazz/a.flac"], position := none }

def rockPl : Playlist :=
  { name := "Rock", card_id := some 0, allow_random := false, radio_url := none,
    files := [], position := some (3, 0) }

def jazzStore : Store := { root_path := "/r", playlists := [jazzPl, rockPl] }

/-- A radio playlist record, and a filesystem whose same-named subdirectory
is populated. -/
def radioDoc : PlaylistDoc :=
  { name := "R", card_id := none, allow_random := false, radio_url := some "http://s" }

def radioFS : FS :=
  { conf := .parsed [radioDoc], readDir := fun _ => some [some "x.mp3"] }

def radioStore : Store := { root_path := "/r", playlists := [docToPlaylist radioDoc] }

/-- A non-radio playlist record over a filesystem where no directory is
listable. -/
def plainDoc : PlaylistDoc :=
  { name := "A", card_id := none, allow_random := false, radio_url := none }

def missingDirFS : FS := { conf := .parsed [plainDoc], readDir := fun _ => none }

/-- A root whose primary document holds no playlists. -/
def emptyFS : FS := { conf := .parsed [], readDir := fun _ => some [] }

/-- Stores with assigned card-id sets `{}`, `{0, 2, 3}` and `{1}`. -/
def emptyStore : Store := { root_path := "/r", playlists := [] }

def store023 : Store :=
  { root_path := "/r",
    playlists := [plWithCard "a" (some 0), plWithCard "b" (some 2), plWithCard "c" (some 3)] }

def oneIdStore : Store := { root_path := "/r", playlists := [plWithCard "a" (some 1)] }

/-- A store where card id 5 is already taken by "A" while "Jazz" has no
card. -/
def plA5 : Playlist := plWithCard "A" (some 5)

def collisionStore : Store :=
  { root_path := "/r", playlists := [plA5, plWithCard "Jazz" none] }

/-- Round-trip fixtures: a one-playlist document, the filesystem it is first
loaded from, the loaded store, and the filesystem found at the root after
saving that store (the primary document now holds the saved records; the
subdirectory happens to have become empty). -/
def rtDoc : PlaylistDoc :=
  { name := "Jazz", card_id := some 1, allow_random := true, radio_url := none }

def rtFS1 : FS := { conf := .parsed [rtDoc], readDir := fun _ => some [some "a.flac"] }

def rtStore : Store :=
  { root_path := "/r",
    playlists := [{ name := "Jazz", card_id := some 1, allow_random := true,
                    radio_url := none, files := ["/r/files/Jazz/a.flac"],
                    position := none }] }

def rtFS2 : FS := { conf := .parsed [rtDoc], readDir := fun _ => some [] }

/-! ### Dispatch lemmas for from_path -/

theorem from_path_conf_missing (fs : FS) (path : String) (hc : fs.conf = .missing) :
    from_path fs path = .err (.ConfMissing path) := by
  simp only [from_path, hc]

theorem from_path_conf_invalid (fs : FS) (path : String) (hc : fs.conf = .invalid) :
    from_path fs path = .err .ParseError := by
  simp only [from_path, hc]

theorem from_path_panic_of_resolve (fs : FS) (path : String) (docs : List PlaylistDoc)
    (hc : fs.conf = .parsed docs)
    (hr : resolveAll fs path (docs.map docToPlaylist) = none) :
    from_path fs path = .panic := by
  simp only [from_path, hc, hr]

theorem from_path_ok_of_resolve (fs : FS) (path : String) (docs : List PlaylistDoc)
    (pls : List Playlist) (hc : fs.conf = .parsed docs)
    (hr : resolveAll fs path (docs.map docToPlaylist) = some pls) :
    from_path fs path = .ok { root_path := path, playlists := pls } := by
  simp only [from_path, hc, hr]

/-! ### Helper lemmas on first-match lookup and update -/

theorem find?_name_eq_none (n : String) (l : List Playlist)
    (h : ∀ p ∈ l, p.name ≠ n) : l.find? (fun x => x.name == n) = none := by
  rw [List.find?_eq_none]
  intro x hx
  simpa using h x hx

theorem find?_name_first (n : String) (l₁ l₂ : List Playlist) (p : Playlist)
    (h₁ : ∀ q ∈ l₁, q.name ≠ n) (h₂ : p.name = n) :
    (l₁ ++ p :: l₂).find? (fun x => x.name == n) = some p := by
  induction l₁ with
  | nil =>
      simp only [List.nil_append]
      exact List.find?_cons_of_pos _ (by simpa using h₂)
  | cons q t ih =>
      have hq : ¬ (q.name == n) = true := by
        simpa using h₁ q (List.mem_cons_self q t)
      rw [List.cons_append]
      exact (List.find?_cons_of_neg (p := fun x : Playlist => x.name == n) _ hq).trans
        (ih (fun r hr => h₁ r (List.mem_cons_of_mem q hr)))

theorem updateFirst_eq_none (f : Playlist → Playlist) (n : String) (l : List Playlist)
    (h : ∀ p ∈ l, p.name ≠ n) : updateFirst f n l = none := by
  induction l with
  | nil => rfl
  | cons q t ih =>
      have hq : ¬ (q.name == n) = true := by
        simpa using h q (List.mem_cons_self q t)
      simp only [updateFirst, if_neg hq,
        ih (fun r hr => h r (List.mem_cons_of_mem q hr)), Option.map_none']

theorem updateFirst_first (f : Playlist → Playlist) (n : String)
    (l₁ l₂ : List Playlist) (p : Playlist)
    (h₁ : ∀ q ∈ l₁, q.name ≠ n) (h₂ : p.name = n) :
    updateFirst f n (l₁ ++ p :: l₂) = some (l₁ ++ f p :: l₂) := by
  induction l₁ with
  | nil =>
      simp only [List.nil_append, updateFirst, if_pos (show (p.name == n) = true by simpa using h₂)]
  | cons q t ih =>
      have hq : ¬ (q.name == n) = true := by
        simpa using h₁ q (List.mem_cons_self q t)
      simp only [List.cons_append, updateFirst, if_neg hq, List.append_eq,
        ih (fun r hr => h₁ r (List.mem_cons_of_mem q hr)), Option.map_some']

/-! ### Helper lemmas on resolveAll -/

theorem resolvePlaylist_of_radio (fs : FS) (root : String) (pl : Playlist)
    (h : pl.radio_url.isSome) : resolvePlaylist fs root pl = some pl := by
  cases hu : pl.radio_url with
  | none => rw [hu] at h; simp at h
  | some u => simp [resolvePlaylist, hu]

theorem resolveAll_mem (fs : FS) (root : String) :
    ∀ (l l' : List Playlist), resolveAll fs root l = some l' →
      ∀ p' ∈ l', ∃ p ∈ l, resolvePlaylist fs root p = some p' := by
  intro l
  induction l with
  | nil =>
      intro l' h p' hp'
      unfold resolveAll at h
      injection h with h
      rw [← h] at hp'
      simp at hp'
  | cons p ps ih =>
      intro l' h p' hp'
      unfold resolveAll at h
      cases hr : resolvePlaylist fs root p with
      | none => rw [hr] at h; simp at h
      | some q =>
          rw [hr] at h
          cases hrs : resolveAll fs root ps with
          | none => rw [hrs] at h; simp at h
          | some ls =>
              rw [hrs] at h
              simp only [Option.map_some'] at h
              injection h with h
              rw [← h] at hp'
              rcases List.mem_cons.mp hp' with rfl | hmem
              · exact ⟨p, List.mem_cons_self p ps, hr⟩
              · obtain ⟨r, hrmem, hrres⟩ := ih ls hrs p' hmem
                exact ⟨r, List.mem_cons_of_mem p hrmem, hrres⟩

theorem resolveAll_none_of_mem (fs : FS) (root : String) :
    ∀ (l : List Playlist) (p : Playlist), p ∈ l → resolvePlaylist fs root p = none →
      resolveAll fs root l = none := by
  intro l
  induction l with
  | nil => intro p hp; simp at hp
  | cons q t ih =>
      intro p hp hres
      unfold resolveAll
      rcases List.mem_cons.mp hp with rfl | hmem
      · rw [hres]
      · cases hq : resolvePlaylist fs root q with
        | none => rfl
        | some q' => rw [ih p hmem hres]; rfl

/-! ### C5: radio playlists keep an empty file list -/

theorem resolvePlaylist_radio_files (fs : FS) (root : String) (pl p' : Playlist)
    (hfiles : pl.files = []) (hres : resolvePlaylist fs root pl = some p')
    (hradio : p'.radio_url.isSome) : p'.files = [] := by
  cases hu : pl.radio_url with
  | some u =>
      rw [resolvePlaylist_of_radio fs root pl (by rw [hu]; rfl)] at hres
      injection hres with hres
      rw [← hres]
      exact hfiles
  | none =>
      cases hd : fs.readDir pl.name with
      | none =>
          unfold resolvePlaylist at hres
          rw [hu, hd] at hres
          simp at hres
      | some es =>
          unfold resolvePlaylist at hres
          rw [hu, hd] at hres
          simp only [Option.isNone_none, if_true, Option.some.injEq] at hres
          rw [← hres] at hradio
          simp [hu] at hradio

/-- C5: in every successfully loaded store, a playlist whose `radio_url` is
present has an empty `files` sequence, whatever `readDir` would have
returned for its name. -/
theorem radio_files_empty (fs : FS) (path : String) (s : Store)
    (h : from_path fs path = .ok s) :
    ∀ p ∈ s.playlists, p.radio_url.isSome → p.files = [] := by
  cases hc : fs.conf with
  | missing => rw [from_path_conf_missing fs path hc] at h; simp at h
  | invalid => rw [from_path_conf_invalid fs path hc] at h; simp at h
  | parsed docs =>
      cases hr : resolveAll fs path (docs.map docToPlaylist) with
      | none => rw [from_path_panic_of_resolve fs path docs hc hr] at h; simp at h
      | some pls =>
          rw [from_path_ok_of_resolve fs path docs pls hc hr] at h
          simp only [LoadResult.ok.injEq] at h
          intro p hp hradio
          rw [← h] at hp
          obtain ⟨q, hq, hres⟩ := resolveAll_mem fs path _ pls hr p hp
          obtain ⟨d, _, rfl⟩ := List.mem_map.mp hq
          exact resolvePlaylist_radio_files fs path (docToPlaylist d) p rfl hres hradio

/-- Witness for C5 at a concrete load whose `files/R/` directory is
populated: the radio playlist still has no files. -/
theorem radio_files_empty_witness : (docToPlaylist radioDoc).files = [] :=
  radio_files_empty radioFS "/r" radioStore (by decide) (docToPlaylist radioDoc)
    (by decide) (by decide)

/-! ### C4: a missing subdirectory aborts the load, by panicking -/

/-- Counterexample to C4 as stated: when the backing subdirectory of a
non-radio playlist cannot be listed the load does abort, but through the
`unwrap` panic — no error value is ever returned to the caller. -/
theorem missing_dir_no_error :
    from_path missingDirFS "/r" = .panic ∧ (from_path missingDirFS "/r").isErr = false := by
  decide

/-- C4 amended: if the primary document parses and some playlist without
`radio_url` has an unlistable `files/<name>/` directory, the whole load
aborts via the panic — that playlist is never degraded to an empty file
list and no store is produced. -/
theorem missing_dir_aborts (fs : FS) (path : String) (docs : List PlaylistDoc)
    (hconf : fs.conf = .parsed docs)
    (hd : ∃ d ∈ docs, d.radio_url = none ∧ fs.readDir d.name = none) :
    from_path fs path = .panic := by
  obtain ⟨d, hmem, hradio, hdir⟩ := hd
  refine from_path_panic_of_resolve fs path docs hconf ?_
  refine resolveAll_none_of_mem fs path _ (docToPlaylist d)
    (List.mem_map_of_mem docToPlaylist hmem) ?_
  simp [resolvePlaylist, docToPlaylist, hradio, hdir]

/-- Witness for C4's amended statement at the concrete filesystem of the
counterexample. -/
theorem missing_dir_aborts_witness : from_path missingDirFS "/r" = .panic :=
  missing_dir_aborts missingDirFS "/r" [plainDoc] rfl ⟨plainDoc, by decide, rfl, rfl⟩

/-! ### C6: totality of get_files -/

/-- C6: `get_files` is total and never returns an error: it yields `[]`
when no playlist bears the given name and the resolved `files` of the first
playlist whose name equals the argument otherwise. -/
theorem get_files_total (s : Store) (n : String) :
    ((∀ p ∈ s.playlists, p.name ≠ n) → get_files s n = []) ∧
    (∀ l₁ p l₂, s.playlists = l₁ ++ p :: l₂ → (∀ q ∈ l₁, q.name ≠ n) → p.name = n →
      get_files s n = p.files) := by
  constructor
  · intro h
    unfold get_files
    rw [find?_name_eq_none n _ h]
  · intro l₁ p l₂ hsplit h₁ h₂
    unfold get_files
    rw [hsplit, find?_name_first n l₁ l₂ p h₁ h₂]

/-- Witness for C6 on a concrete store: an unknown name yields `[]`, a known
name yields that playlist's files. -/
theorem get_files_total_witness :
    get_files jazzStore "Rock2" = [] ∧ get_files jazzStore "Jazz" = jazzPl.files :=
  ⟨(get_files_total jazzStore "Rock2").1 (by decide),
   (get_files_total jazzStore "Jazz").2 [] jazzPl [rockPl] rfl (by decide) rfl⟩

/-! ### C7: playlist_by_name -/

/-- C7: `playlist_by_name` fails with `PlaylistNotFound` carrying the
searched name exactly when no playlist has that name, and returns the first
playlist whose name equals the argument when one exists. -/
theorem playlist_by_name_first_or_missing (s : Store) (n : String) :
    (playlist_by_name s n = .error (.PlaylistNotFound n) ↔ ∀ p ∈ s.playlists, p.name ≠ n) ∧
    (∀ l₁ p l₂, s.playlists = l₁ ++ p :: l₂ → (∀ q ∈ l₁, q.name ≠ n) → p.name = n →
      playlist_by_name s n = .ok p) := by
  constructor
  · constructor
    · intro herr
      cases hf : s.playlists.find? (fun x => x.name == n) with
      | some q =>
          exfalso
          unfold playlist_by_name at herr
          rw [hf] at herr
          exact Except.noConfusion herr
      | none =>
          intro p hp
          have hnp := List.find?_eq_none.mp hf p hp
          simpa using hnp
    · intro h
      unfold playlist_by_name
      rw [find?_name_eq_none n _ h]
  · intro l₁ p l₂ hsplit h₁ h₂
    unfold playlist_by_name
    rw [hsplit, find?_name_first n l₁ l₂ p h₁ h₂]

/-- Witness for C7: on a store with playlists "Jazz", "Rock", querying
"Jazz" returns the Jazz entry and querying "Rock2" fails with
`PlaylistNotFound "Rock2"`. -/
theorem playlist_by_name_first_or_missing_witness :
    playlist_by_name jazzStore "Jazz" = .ok jazzPl ∧
    playlist_by_name jazzStore "Rock2" = .error (.PlaylistNotFound "Rock2") :=
  ⟨(playlist_by_name_first_or_missing jazzStore "Jazz").2 [] jazzPl [rockPl] rfl (by decide) rfl,
   (playlist_by_name_first_or_missing jazzStore "Rock2").1.mpr (by decide)⟩

/-! ### C10: frame conditions of the two setters -/

/-- C10: `set_playlist_card_id` and `set_position` touch only the targeted
field of the first playlist whose name matches: playlists before and after
it, its remaining fields, the order of playlists and `root_path` are all
unchanged, and when the lookup fails the whole store is returned
untouched together with `PlaylistNotFound`. -/
theorem set_ops_frame (s : Store) (n : String) (id pos : Nat) :
    ((∀ p ∈ s.playlists, p.name ≠ n) →
      set_playlist_card_id s n id = (s, .error (.PlaylistNotFound n)) ∧
      set_position s n pos = (s, .error (.PlaylistNotFound n))) ∧
    (∀ l₁ p l₂, s.playlists = l₁ ++ p :: l₂ → (∀ q ∈ l₁, q.name ≠ n) → p.name = n →
      set_playlist_card_id s n id =
        ({ s with playlists := l₁ ++ { p with card_id := some id } :: l₂ }, .ok ()) ∧
      set_position s n pos =
        ({ s with playlists := l₁ ++ { p with position := some (pos, 0) } :: l₂ }, .ok ())) := by
  constructor
  · intro h
    constructor
    · unfold set_playlist_card_id
      rw [updateFirst_eq_none _ n _ h]
    · unfold set_position
      rw [updateFirst_eq_none _ n _ h]
  · intro l₁ p l₂ hsplit h₁ h₂
    constructor
    · unfold set_playlist_card_id
      rw [hsplit, updateFirst_first _ n l₁ l₂ p h₁ h₂]
    · unfold set_position
      rw [hsplit, updateFirst_first _ n l₁ l₂ p h₁ h₂]

/-- Witness for C10: updating "Jazz" rewrites exactly its card id, and a
failed lookup hands the store back unchanged. -/
theorem set_ops_frame_witness :
    set_playlist_card_id jazzStore "Jazz" 5 =
      ({ jazzStore with playlists := [{ jazzPl with card_id := some 5 }, rockPl] }, .ok ()) ∧
    set_position jazzStore "Rock2" 2 = (jazzStore, .error (.PlaylistNotFound "Rock2")) :=
  ⟨((set_ops_frame jazzStore "Jazz" 5 2).2 [] jazzPl [rockPl] rfl (by decide) rfl).1,
   ((set_ops_frame jazzStore "Rock2" 5 2).1 (by decide)).2⟩

/-! ### C9: relative root paths are stored verbatim -/

/-- Counterexample to C9 as stated: loading from the relative path "music"
succeeds and stores "music" verbatim; the stored root path is not
absolute. -/
theorem relative_root_not_resolved :
    from_path emptyFS "music" = .ok { root_path := "music", playlists := [] } ∧
    pathIsAbsolute "music" = false := by
  decide

/-- C9 amended: `from_path` stores its root path argument verbatim — no
resolution against the current working directory happens, so a relative
argument yields a relative `root_path`; only `from_pwd`, which passes the
current working directory itself, guarantees an absolute root. -/
theorem root_path_stored_verbatim (fs : FS) (path : String) (s : Store)
    (h : from_path fs path = .ok s) : s.root_path = path := by
  cases hc : fs.conf with
  | missing => rw [from_path_conf_missing fs path hc] at h; simp at h
  | invalid => rw [from_path_conf_invalid fs path hc] at h; simp at h
  | parsed docs =>
      cases hr : resolveAll fs path (docs.map docToPlaylist) with
      | none => rw [from_path_panic_of_resolve fs path docs hc hr] at h; simp at h
      | some pls =>
          rw [from_path_ok_of_resolve fs path docs pls hc hr] at h
          simp only [LoadResult.ok.injEq] at h
          rw [← h]

/-- Witness for C9's amended statement: the relative path "music" is stored
unchanged. -/
theorem root_path_stored_verbatim_witness :
    Store.root_path { root_path := "music", playlists := [] } = "music" :=
  root_path_stored_verbatim emptyFS "music" _ (by decide)

/-! ### C8: set_playlist_card_id followed by playlist_by_card -/

theorem setCard_byCard_list (n : String) (id : Nat) :
    ∀ l : List Playlist, (∃ p ∈ l, p.name = n) →
      (∀ p ∈ l, p.name ≠ n → p.card_id ≠ some id) →
      ∃ p, l.find? (fun x => x.name == n) = some p ∧
        ∃ l', updateFirst (fun q => { q with card_id := some id }) n l = some l' ∧
          l'.find? (fun x => (x.card_id.map (fun c => c == id)).getD false) =
            some { p with card_id := some id } := by
  intro l
  induction l with
  | nil =>
      intro hex _
      obtain ⟨p, hp, _⟩ := hex
      simp at hp
  | cons q t ih =>
      intro hex hid
      by_cases hq : q.name = n
      · refine ⟨q, List.find?_cons_of_pos _ (by simpa using hq),
          { q with card_id := some id } :: t, ?_, ?_⟩
        · simp [updateFirst, hq]
        · exact List.find?_cons_of_pos _ (by simp)
      · have hex' : ∃ p ∈ t, p.name = n := by
          obtain ⟨p, hp, hpn⟩ := hex
          rcases List.mem_cons.mp hp with rfl | hmem
          · exact absurd hpn hq
          · exact ⟨p, hmem, hpn⟩
        have hid' : ∀ p ∈ t, p.name ≠ n → p.card_id ≠ some id :=
          fun p hp => hid p (List.mem_cons_of_mem q hp)
        obtain ⟨p, hfind, l', hupd, hfind'⟩ := ih hex' hid'
        refine ⟨p, ?_, q :: l', ?_, ?_⟩
        · exact (List.find?_cons_of_neg (p := fun x : Playlist => x.name == n) _
            (by simpa using hq)).trans hfind
        · simp [updateFirst, hq, hupd]
        · have hqid : q.card_id ≠ some id := hid q (List.mem_cons_self q t) hq
          have hfalse : ((q.card_id.map (fun c => c == id)).getD false) = false := by
            cases hc : q.card_id with
            | none => rfl
            | some c =>
                rw [hc] at hqid
                simp only [Option.map_some', Option.getD_some]
                simpa using fun hc' => hqid (by rw [hc'])
          exact (List.find?_cons_of_neg
            (p := fun x : Playlist => (x.card_id.map (fun c => c == id)).getD false) _
            (by simp [hfalse])).trans hfind'

/-- Counterexample to C8 as stated: in a store where id 5 is already held by
the earlier playlist "A", `set_playlist_card_id("Jazz", 5)` succeeds, yet
`playlist_by_card(5)` returns the "A" entry, not the "Jazz" one. -/
theorem set_card_collision :
    (set_playlist_card_id collisionStore "Jazz" 5).2 = .ok () ∧
    playlist_by_card (set_playlist_card_id collisionStore "Jazz" 5).1 5 = .ok plA5 ∧
    plA5.name ≠ "Jazz" :=
  ⟨rfl, rfl, by decide⟩

/-- C8 amended: when the store has a playlist with the given name and `id`
is not held by any playlist of a different name, `set_playlist_card_id`
succeeds, overwriting the prior `card_id` of the first playlist with that
name, and `playlist_by_card id` then returns that updated playlist. -/
theorem set_card_then_by_card (s : Store) (n : String) (id : Nat)
    (hex : ∃ p ∈ s.playlists, p.name = n)
    (hid : ∀ p ∈ s.playlists, p.name ≠ n → p.card_id ≠ some id) :
    ∃ p, playlist_by_name s n = .ok p ∧
      (set_playlist_card_id s n id).2 = .ok () ∧
      playlist_by_card (set_playlist_card_id s n id).1 id =
        .ok { p with card_id := some id } := by
  obtain ⟨p, hfind, l', hupd, hfind'⟩ := setCard_byCard_list n id s.playlists hex hid
  refine ⟨p, ?_, ?_, ?_⟩
  · unfold playlist_by_name
    rw [hfind]
  · simp [set_playlist_card_id, hupd]
  · simp only [set_playlist_card_id, hupd, playlist_by_card]
    rw [hfind']

/-- Witness for C8's amended statement: `set_playlist_card_id("Jazz", 5)` on
a collision-free store followed by `playlist_by_card(5)` yields the updated
Jazz playlist. -/
theorem set_card_then_by_card_witness :
    ∃ p, playlist_by_name jazzStore "Jazz" = .ok p ∧
      (set_playlist_card_id jazzStore "Jazz" 5).2 = .ok () ∧
      playlist_by_card (set_playlist_card_id jazzStore "Jazz" 5).1 5 =
        .ok { p with card_id := some 5 } :=
  set_card_then_by_card jazzStore "Jazz" 5 ⟨jazzPl, by decide, rfl⟩ (by decide)

/-! ### C1: save/load round trip over the persisted schema -/

theorem resolvePlaylist_doc (fs : FS) (root : String) (pl p' : Playlist)
    (h : resolvePlaylist fs root pl = some p') : playlistToDoc p' = playlistToDoc pl := by
  cases hu : pl.radio_url with
  | some u =>
      rw [resolvePlaylist_of_radio fs root pl (by rw [hu]; rfl)] at h
      injection h with h
      rw [h]
  | none =>
      cases hd : fs.readDir pl.name with
      | none =>
          unfold resolvePlaylist at h
          rw [hu, hd] at h
          simp at h
      | some es =>
          unfold resolvePlaylist at h
          rw [hu, hd] at h
          simp only [Option.isNone_none, if_true, Option.some.injEq] at h
          rw [← h]
          simp [playlistToDoc, hu]

theorem resolveAll_docs (fs : FS) (root : String) :
    ∀ (l l' : List Playlist), resolveAll fs root l = some l' →
      l'.map playlistToDoc = l.map playlistToDoc := by
  intro l
  induction l with
  | nil =>
      intro l' h
      unfold resolveAll at h
      injection h with h
      rw [← h]
  | cons p ps ih =>
      intro l' h
      unfold resolveAll at h
      cases hr : resolvePlaylist fs root p with
      | none => rw [hr] at h; simp at h
      | some q =>
          rw [hr] at h
          cases hrs : resolveAll fs root ps with
          | none => rw [hrs] at h; simp at h
          | some ls =>
              rw [hrs] at h
              simp only [Option.map_some'] at h
              injection h with h
              rw [← h]
              simp only [List.map_cons]
              rw [resolvePlaylist_doc fs root p q hr, ih ls hrs]

theorem resolveAll_total (fs : FS) (root : String)
    (hread : ∀ n, (fs.readDir n).isSome) :
    ∀ l : List Playlist, ∃ l', resolveAll fs root l = some l' := by
  intro l
  induction l with
  | nil => exact ⟨[], rfl⟩
  | cons p ps ih =>
      obtain ⟨ls, hls⟩ := ih
      have hq : ∃ q, resolvePlaylist fs root p = some q := by
        cases hu : p.radio_url with
        | some u => exact ⟨p, resolvePlaylist_of_radio fs root p (by rw [hu]; rfl)⟩
        | none =>
            cases hd : fs.readDir p.name with
            | none =>
                have hn := hread p.name
                rw [hd] at hn
                simp at hn
            | some es =>
                exact ⟨{ p with files :=
                    (es.filterMap id).map (fun e => root ++ "/files/" ++ p.name ++ "/" ++ e) },
                  by unfold resolvePlaylist; rw [hu, hd]; simp⟩
      obtain ⟨q, hq⟩ := hq
      exact ⟨q :: ls, by unfold resolveAll; rw [hq, hls]; rfl⟩

/-- C1: a store loaded from a primary document, once saved, reloads from the
written document with the same names, `card_id`s, `allow_random` flags and
`radio_url`s in the same order (the `playlistToDoc` projection is exactly
those persisted fields; `files` and `position` may differ). -/
theorem save_load_roundtrip (fs1 fs2 : FS) (p1 p2 : String) (s : Store)
    (hload : from_path fs1 p1 = .ok s)
    (h2 : fs2.conf = .parsed (s.save).1)
    (h3 : ∀ n, (fs2.readDir n).isSome) :
    ∃ s2, from_path fs2 p2 = .ok s2 ∧
      s2.playlists.map playlistToDoc = s.playlists.map playlistToDoc := by
  obtain ⟨pls, hpls⟩ := resolveAll_total fs2 p2 h3 ((s.save).1.map docToPlaylist)
  refine ⟨{ root_path := p2, playlists := pls },
    from_path_ok_of_resolve fs2 p2 _ pls h2 hpls, ?_⟩
  have hmap := resolveAll_docs fs2 p2 _ pls hpls
  show pls.map playlistToDoc = s.playlists.map playlistToDoc
  rw [hmap]
  show ((s.playlists.map playlistToDoc).map docToPlaylist).map playlistToDoc
    = s.playlists.map playlistToDoc
  rw [List.map_map, List.map_map]
  have hcomp : ((playlistToDoc ∘ docToPlaylist) ∘ playlistToDoc) = playlistToDoc := by
    funext q
    rfl
  rw [hcomp]

/-- Witness for C1 at a concrete one-playlist library: the reload after a
save preserves the persisted fields. -/
theorem save_load_roundtrip_witness :
    ∃ s2, from_path rtFS2 "/r" = .ok s2 ∧
      s2.playlists.map playlistToDoc = rtStore.playlists.map playlistToDoc :=
  save_load_roundtrip rtFS1 rtFS2 "/r" "/r" rtStore (by decide) (by decide) (fun n => rfl)

theorem windowGap_cons_cons (a b : Nat) (t : List Nat) :
    windowGap (a :: b :: t) = if a + 1 ≠ b then some (a + 1) else windowGap (b :: t) := rfl

theorem windowGap_cons_cons_of_eq (a b : Nat) (t : List Nat) (h : a + 1 = b) :
    windowGap (a :: b :: t) = windowGap (b :: t) := by
  rw [windowGap_cons_cons, if_neg (by simpa using h)]

theorem windowGap_cons_cons_of_ne (a b : Nat) (t : List Nat) (h : a + 1 ≠ b) :
    windowGap (a :: b :: t) = some (a + 1) := by
  rw [windowGap_cons_cons, if_pos h]

theorem gapResult_eq_of_windowGap_some (l : List Nat) (v : Nat) (h : windowGap l = some v) :
    gapResult l = v := by
  unfold gapResult
  rw [h]

theorem gapResult_eq_of_windowGap_none (l : List Nat) (h : windowGap l = none) (hne : l ≠ []) :
    gapResult l = l.getLastD 0 + 1 := by
  unfold gapResult
  rw [h, if_neg (by simpa using hne)]

theorem gapResult_cons_cons (a b : Nat) (t : List Nat) (h : a + 1 = b) :
    gapResult (a :: b :: t) = gapResult (b :: t) := by
  cases hwg : windowGap (b :: t) with
  | some v =>
      rw [gapResult_eq_of_windowGap_some _ _ ((windowGap_cons_cons_of_eq a b t h).trans hwg),
        gapResult_eq_of_windowGap_some _ _ hwg]
  | none =>
      rw [gapResult_eq_of_windowGap_none _ ((windowGap_cons_cons_of_eq a b t h).trans hwg)
          (by simp),
        gapResult_eq_of_windowGap_none _ hwg (by simp),
        List.getLastD_cons, List.getLastD_cons, List.getLastD_cons]

theorem gapResult_least : ∀ l : List Nat, List.Sorted (· < ·) l → l ≠ [] →
    gapResult l ∉ l ∧ (∃ a ∈ l, a < gapResult l) ∧
    ∀ m, m ∉ l → (∃ a ∈ l, a < m) → gapResult l ≤ m := by
  intro l
  induction l with
  | nil => intro _ h; exact absurd rfl h
  | cons a t ih =>
      intro hs _
      cases t with
      | nil =>
          have hg : gapResult [a] = a + 1 := rfl
          rw [hg]
          refine ⟨by simp, ⟨a, by simp, by omega⟩, ?_⟩
          intro m _ hex
          obtain ⟨x, hx, hxm⟩ := hex
          have hxa : x = a := List.mem_singleton.mp hx
          omega
      | cons b t' =>
          obtain ⟨hab, hs'⟩ := List.sorted_cons.mp hs
          have haltb : a < b := hab b (List.mem_cons_self b t')
          have hble : ∀ y ∈ b :: t', b ≤ y := by
            intro y hy
            rcases List.mem_cons.mp hy with heq | hy'
            · omega
            · exact Nat.le_of_lt ((List.sorted_cons.mp hs').1 y hy')
          have hale : ∀ y ∈ a :: b :: t', a ≤ y := by
            intro y hy
            rcases List.mem_cons.mp hy with heq | hy'
            · omega
            · exact Nat.le_of_lt (hab y hy')
          by_cases hb : a + 1 = b
          · rw [gapResult_cons_cons a b t' hb]
            obtain ⟨hni, ⟨x, hx, hxg⟩, hmin⟩ := ih hs' (List.cons_ne_nil b t')
            have hbg : b < gapResult (b :: t') := Nat.lt_of_le_of_lt (hble x hx) hxg
            refine ⟨?_, ⟨a, List.mem_cons_self a (b :: t'), by omega⟩, ?_⟩
            · intro hmem
              rcases List.mem_cons.mp hmem with heq | hmem'
              · omega
              · exact hni hmem'
            · intro m hm hex
              have hm' : m ∉ b :: t' := fun hc => hm (List.mem_cons_of_mem a hc)
              refine hmin m hm' ?_
              obtain ⟨x, hx, hxm⟩ := hex
              rcases List.mem_cons.mp hx with heq | hx'
              · have hmnb : m ≠ b := fun hc => hm (by
                  rw [hc]
                  exact List.mem_cons_of_mem a (List.mem_cons_self b t'))
                exact ⟨b, List.mem_cons_self b t', by omega⟩
              · exact ⟨x, hx', hxm⟩
          · rw [gapResult_eq_of_windowGap_some _ _ (windowGap_cons_cons_of_ne a b t' hb)]
            refine ⟨?_, ⟨a, List.mem_cons_self a (b :: t'), by omega⟩, ?_⟩
            · intro hmem
              rcases List.mem_cons.mp hmem with heq | hmem'
              · omega
              · have hba := hble _ hmem'
                omega
            · intro m hm hex
              obtain ⟨x, hx, hxm⟩ := hex
              have hax := hale x hx
              omega

theorem next_card_id_eq (s : Store) :
    next_card_id s = gapResult (List.insertionSort (· ≤ ·) (assignedIds s)) := rfl

theorem sorted_getLastD_eq_foldr_max : ∀ l : List Nat, List.Sorted (· ≤ ·) l → l ≠ [] →
    l.getLastD 0 = l.foldr max 0 := by
  intro l
  induction l with
  | nil => intro _ h; exact absurd rfl h
  | cons a t ih =>
      intro hs _
      cases t with
      | nil =>
          show a = max a 0
          rw [max_eq_left (Nat.zero_le a)]
      | cons b t' =>
          obtain ⟨ha, hs'⟩ := List.sorted_cons.mp hs
          have hrec := ih hs' (List.cons_ne_nil b t')
          rw [List.getLastD_cons, List.getLastD_cons]
          rw [List.getLastD_cons] at hrec
          rw [hrec]
          simp only [List.foldr_cons]
          have hab : a ≤ b := ha b (List.mem_cons_self b t')
          exact (max_eq_right (le_trans hab (le_max_left b _))).symm

theorem foldr_max_perm (l₁ l₂ : List Nat) (h : l₁.Perm l₂) :
    l₁.foldr max 0 = l₂.foldr max 0 := by
  haveI : LeftCommutative (max : Nat → Nat → Nat) := max_left_commutative
  exact h.foldr_eq 0

theorem specNextCardId_eq_of_some (s : Store) (v : Nat)
    (h : windowGap (List.insertionSort (· ≤ ·) (assignedIds s)) = some v) :
    specNextCardId s = v := by
  unfold specNextCardId
  rw [h]

theorem specNextCardId_eq_of_none (s : Store)
    (h : windowGap (List.insertionSort (· ≤ ·) (assignedIds s)) = none) :
    specNextCardId s =
      if (assignedIds s).isEmpty then 0 else (assignedIds s).foldr max 0 + 1 := by
  unfold specNextCardId
  rw [h]

/-- C3: `next_card_id` computes exactly the spec's reference algorithm
(`specNextCardId`: sort the assigned ids ascending, return `a + 1` at the
first adjacent gap, else one past the maximum assigned id, or `0` with no
ids); in particular it returns `0` on an empty assignment set and `1` on
the assigned set `{0, 2, 3}`. -/
theorem next_card_id_matches_spec :
    (∀ s : Store, next_card_id s = specNextCardId s) ∧
    next_card_id emptyStore = 0 ∧ next_card_id store023 = 1 := by
  refine ⟨?_, by decide, by decide⟩
  intro s
  rw [next_card_id_eq]
  cases hw : windowGap (List.insertionSort (· ≤ ·) (assignedIds s)) with
  | some v =>
      rw [gapResult_eq_of_windowGap_some _ _ hw, specNextCardId_eq_of_some s v hw]
  | none =>
      rw [specNextCardId_eq_of_none s hw]
      by_cases hempty : assignedIds s = []
      · rw [if_pos (by simp [hempty]), hempty]
        rfl
      · have hne : List.insertionSort (· ≤ ·) (assignedIds s) ≠ [] := by
          intro hc
          apply hempty
          have hl := List.length_insertionSort (· ≤ ·) (assignedIds s)
          rw [hc] at hl
          exact List.length_eq_zero.mp hl.symm
        rw [gapResult_eq_of_windowGap_none _ hw hne,
          if_neg (by simpa [List.isEmpty_iff] using hempty),
          sorted_getLastD_eq_foldr_max _ (List.sorted_insertionSort (· ≤ ·) _) hne,
          foldr_max_perm _ _ (List.perm_insertionSort (· ≤ ·) _)]

/-- Counterexample to C2 as stated: with assigned set `{1}` the smallest
unassigned id is `0`, yet `next_card_id` returns `2` — it never looks below
the minimum assigned id. -/
theorem next_card_id_skips_zero :
    0 ∉ assignedIds oneIdStore ∧ next_card_id oneIdStore = 2 := by
  decide

/-- C2 amended: under the card-id uniqueness invariant, `next_card_id`
returns `0` when no id is assigned, and otherwise the smallest id that is
unassigned and strictly greater than at least one assigned id (equivalently,
greater than the minimum assigned id) — it fills gaps above the minimum
before extending, but ids below the minimum assigned id (such as an
unassigned `0`) are never returned. -/
theorem next_card_id_least_above_min (s : Store) (hnd : (assignedIds s).Nodup) :
    (assignedIds s = [] ∧ next_card_id s = 0) ∨
    (next_card_id s ∉ assignedIds s ∧
     (∃ a ∈ assignedIds s, a < next_card_id s) ∧
     ∀ m, m ∉ assignedIds s → (∃ a ∈ assignedIds s, a < m) → next_card_id s ≤ m) := by
  by_cases hempty : assignedIds s = []
  · left
    refine ⟨hempty, ?_⟩
    rw [next_card_id_eq, hempty]
    rfl
  · right
    have hperm := List.perm_insertionSort (· ≤ ·) (assignedIds s)
    have hne : List.insertionSort (· ≤ ·) (assignedIds s) ≠ [] := by
      intro hc
      apply hempty
      have hl := List.length_insertionSort (· ≤ ·) (assignedIds s)
      rw [hc] at hl
      exact List.length_eq_zero.mp hl.symm
    have hnd' : (List.insertionSort (· ≤ ·) (assignedIds s)).Nodup :=
      hperm.nodup_iff.mpr hnd
    have hsl : List.Sorted (· < ·) (List.insertionSort (· ≤ ·) (assignedIds s)) :=
      (List.sorted_insertionSort (· ≤ ·) (assignedIds s)).lt_of_le hnd'
    obtain ⟨h1, ⟨x, hx, hxg⟩, h3⟩ :=
      gapResult_least (List.insertionSort (· ≤ ·) (assignedIds s)) hsl hne
    rw [next_card_id_eq]
    refine ⟨fun hc => h1 (hperm.mem_iff.mpr hc), ⟨x, hperm.mem_iff.mp hx, hxg⟩, ?_⟩
    intro m hm hex
    refine h3 m (fun hc => hm (hperm.mem_iff.mp hc)) ?_
    obtain ⟨y, hy, hym⟩ := hex
    exact ⟨y, hperm.mem_iff.mpr hy, hym⟩

/-- Witness for C2's amended statement on the assigned set `{0, 2, 3}`. -/
theorem next_card_id_least_above_min_witness :
    (assignedIds store023 = [] ∧ next_card_id store023 = 0) ∨
    (next_card_id store023 ∉ assignedIds store023 ∧
     (∃ a ∈ assignedIds store023, a < next_card_id store023) ∧
     ∀ m, m ∉ assignedIds store023 → (∃ a ∈ assignedIds store023, a < m) →
       next_card_id store023 ≤ m) :=
  next_card_id_least_above_min store023 (by decide)

end Odysseus
